import Mathlib

/-!
Verification of `memsql/common/sql_lock.py`.

The backing store is modelled as an association list of lock records keyed
by the lock id (the table's primary key).  Store timestamps (`NOW()`,
`last_contact`) and the `expiry` column are integers counting seconds;
Python-side wall-clock values (`time.time()`, `timeout`) are integers and
the `retry_interval` duration is a rational.  Claim tokens (`uuid1().hex`
hex strings stored in the `lock_hash` column) are modelled as strings
supplied by the caller, since their generation lives outside this module.
-/

deriving instance DecidableEq for Except

namespace SqlLock

/-- Duplicate-key error code. Modelled from the spec: the `errorcodes`
module imported by the source is not part of the repository; the spec only
requires a detectable "duplicate primary key" failure condition distinct
from all other failures, which MySQL signals with code 1062. -/
def ER_DUP_ENTRY : Nat := 1062

/-- One row of the lock table (columns of `LOCK_TABLE` other than the
primary key `id`). -/
structure LockRecord where
  lock_hash : String
  owner : String
  last_contact : Int
  expiry : Int
deriving Repr, DecidableEq

/-- The lock table: rows keyed by the primary-key column `id`. -/
abbrev Table := List (String × LockRecord)

/-- Connection descriptor passed to `SQLLockManager.connect`. -/
structure DbArgs where
  host : String
  port : Nat
  user : String
  password : String
  database : String
deriving Repr, DecidableEq

/-- The manager: its table name and, once `connect` has run, the stored
connection arguments (`_db_args`, `none` before `connect`). -/
structure SQLLockManager where
  table_name : String
  db_args : Option DbArgs
deriving Repr, DecidableEq

/-- The handle returned by a successful claim (`SQLLock.__init__`). -/
structure SQLLock where
  lock_id : String
  lock_hash : String
  owner : String
  manager : SQLLockManager
deriving Repr, DecidableEq

/-- The `NotConnected` exception raised by `_db_conn`. -/
inductive NotConnected where
  | mk
deriving Repr, DecidableEq

/-- A MySQL error as destructured by the source: `(errno, msg)`. -/
abbrev MySQLError := Nat × String

/-- The database: the set of existing tables, plus the rows of the
manager's lock table. -/
structure Store where
  tables : List String
  rows : Table
deriving Repr, DecidableEq

/-- The staleness test of the sweep statement:
`last_contact <= NOW() - expiry`. -/
def isStale (now : Int) (r : LockRecord) : Bool :=
  r.last_contact ≤ now - r.expiry

/-- `DELETE FROM t WHERE last_contact <= NOW() - expiry`: drop every stale
row, keep the rest in order. -/
def sweep (now : Int) : Table → Table
  | [] => []
  | (i, r) :: t => if isStale now r then sweep now t else (i, r) :: sweep now t

/-- Primary-key lookup: the row whose `id` equals the given key. -/
def findRecord : Table → String → Option LockRecord
  | [], _ => none
  | (i, r) :: t, id => if i = id then some r else findRecord t id

/-- The list of primary keys present in the table. -/
def keysOf (t : Table) : List String := t.map Prod.fst

/-- Store-level well-formedness: primary-key uniqueness of `id`. -/
abbrev WF (t : Table) : Prop := (keysOf t).Nodup

/-- `INSERT INTO t (id, ...) VALUES (...)`: fails with `ER_DUP_ENTRY` when
a row with this primary key already exists. -/
def insertRecord (t : Table) (id : String) (r : LockRecord) : Except MySQLError Table :=
  match findRecord t id with
  | some _ => Except.error (ER_DUP_ENTRY, "Duplicate entry")
  | none => Except.ok ((id, r) :: t)

/-- The `try` body of `_acquire_lock`: sweep, then insert the new record
(with `last_contact` defaulted to the current store time) and build the
handle. -/
def acquireBody (m : SQLLockManager) (now : Int) (tok lock_id owner : String)
    (expiry : Int) (t : Table) : Except MySQLError (Option SQLLock × Table) :=
  let t1 := sweep now t
  match insertRecord t1 lock_id
      { lock_hash := tok, owner := owner, last_contact := now, expiry := expiry } with
  | Except.ok t2 =>
      Except.ok (some { lock_id := lock_id, lock_hash := tok, owner := owner, manager := m }, t2)
  | Except.error e => Except.error e

/-- The `except MySQLError` clause of `_acquire_lock`: a duplicate-key
error becomes the `None` sentinel (the table stays as the sweep left it),
every other error is re-raised. -/
def acquireHandler (t1 : Table) :
    Except MySQLError (Option SQLLock × Table) → Except MySQLError (Option SQLLock × Table)
  | Except.ok x => Except.ok x
  | Except.error (errno, msg) =>
      if errno = ER_DUP_ENTRY then Except.ok (none, t1) else Except.error (errno, msg)

/-- `SQLLockManager._acquire_lock`: one non-blocking claim attempt. -/
def acquire_lock (m : SQLLockManager) (now : Int) (tok lock_id owner : String)
    (expiry : Int) (t : Table) : Except MySQLError (Option SQLLock × Table) :=
  acquireHandler (sweep now t) (acquireBody m now tok lock_id owner expiry t)

/-- The `SELECT (lock_hash=%s && last_contact > NOW() - expiry) AS valid`
query of `SQLLock.valid`, together with the final
`bool(row is not None and row.valid)`. -/
def validCheck (now : Int) (t : Table) (id tok : String) : Bool :=
  match findRecord t id with
  | none => false
  | some r => decide (r.lock_hash = tok) && decide (r.last_contact > now - r.expiry)

/-- Number of rows matched by `WHERE id = %s AND lock_hash = %s` (the
affected-row count reported for the `UPDATE` of `ping` and the `DELETE` of
`release`). -/
def matchCount (id tok : String) : Table → Nat
  | [] => 0
  | (i, r) :: t => (if i = id ∧ r.lock_hash = tok then 1 else 0) + matchCount id tok t

/-- `UPDATE t SET last_contact=NOW() WHERE id = %s AND lock_hash = %s`. -/
def pingUpdate (now : Int) (id tok : String) : Table → Table
  | [] => []
  | (i, r) :: t =>
      (if i = id ∧ r.lock_hash = tok then (i, { r with last_contact := now }) else (i, r))
        :: pingUpdate now id tok t

/-- `SQLLock.ping`: renew `last_contact` on the owned row and report
whether exactly one row was affected. -/
def ping (now : Int) (id tok : String) (t : Table) : Bool × Table :=
  (decide (matchCount id tok t = 1), pingUpdate now id tok t)

/-- `DELETE FROM t WHERE id = %s AND lock_hash = %s`. -/
def deleteRecord (id tok : String) : Table → Table
  | [] => []
  | (i, r) :: t =>
      if i = id ∧ r.lock_hash = tok then deleteRecord id tok t
      else (i, r) :: deleteRecord id tok t

/-- `SQLLock.release`: check `valid()` first; if valid, delete the owned
row and report whether exactly one row was removed, otherwise return
`False` without touching the store. -/
def release (now : Int) (id tok : String) (t : Table) : Bool × Table :=
  if validCheck now t id tok then (decide (matchCount id tok t = 1), deleteRecord id tok t)
  else (false, t)

/-- `_db_conn`: raises `NotConnected` when `connect` has not stored the
connection arguments yet. -/
def db_conn (m : SQLLockManager) : Except NotConnected DbArgs :=
  match m.db_args with
  | none => Except.error NotConnected.mk
  | some a => Except.ok a

/-- `SQLLockManager.setup`: `CREATE TABLE IF NOT EXISTS`. -/
def setupOp (m : SQLLockManager) (s : Store) : Except NotConnected Store :=
  match db_conn m with
  | Except.error _ => Except.error NotConnected.mk
  | Except.ok _ =>
      if m.table_name ∈ s.tables then Except.ok s
      else Except.ok { tables := m.table_name :: s.tables, rows := [] }

/-- `SQLLockManager.destroy`: `DROP TABLE IF EXISTS`. -/
def destroyOp (m : SQLLockManager) (s : Store) : Except NotConnected Store :=
  match db_conn m with
  | Except.error _ => Except.error NotConnected.mk
  | Except.ok _ => Except.ok { tables := s.tables.erase m.table_name, rows := [] }

/-- `SQLLockManager.ready`: does the lock table exist? -/
def readyOp (m : SQLLockManager) (s : Store) : Except NotConnected Bool :=
  match db_conn m with
  | Except.error _ => Except.error NotConnected.mk
  | Except.ok _ => Except.ok (m.table_name ∈ s.tables)

/-- One store-touching claim attempt as seen from `acquire`: `_acquire_lock`
first opens a connection (`NotConnected` propagates, it is not a
`MySQLError`), then runs the attempt on the rows. -/
def acquireOp (m : SQLLockManager) (now : Int) (tok lock_id owner : String)
    (expiry : Int) (s : Store) :
    Except NotConnected (Except MySQLError (Option SQLLock × Table)) :=
  match db_conn m with
  | Except.error _ => Except.error NotConnected.mk
  | Except.ok _ => Except.ok (acquire_lock m now tok lock_id owner expiry s.rows)

/-- `SQLLock.valid` at the store level: reads only, never writes. -/
def validOp (now : Int) (h : SQLLock) (s : Store) : Except NotConnected (Bool × Store) :=
  match db_conn h.manager with
  | Except.error _ => Except.error NotConnected.mk
  | Except.ok _ => Except.ok (validCheck now s.rows h.lock_id h.lock_hash, s)

/-- `SQLLock.ping` at the store level. -/
def pingOp (now : Int) (h : SQLLock) (s : Store) : Except NotConnected (Bool × Store) :=
  match db_conn h.manager with
  | Except.error _ =>
      Except.error NotConnected.mk
  | Except.ok _ =>
      let p := ping now h.lock_id h.lock_hash s.rows
      Except.ok (p.1, { s with rows := p.2 })

/-- `SQLLock.release` at the store level. -/
def releaseOp (now : Int) (h : SQLLock) (s : Store) : Except NotConnected (Bool × Store) :=
  match db_conn h.manager with
  | Except.error _ =>
      Except.error NotConnected.mk
  | Except.ok _ =>
      let p := release now h.lock_id h.lock_hash s.rows
      Except.ok (p.1, { s with rows := p.2 })

/-- `SQLLock.__enter__`: returns the handle itself. -/
def enterOp (h : SQLLock) : SQLLock := h

/-- `SQLLock.__exit__`: calls `release` (on every exit path of the `with`
block) and discards its boolean result. -/
def exitOp (now : Int) (h : SQLLock) (s : Store) : Except NotConnected Store :=
  match releaseOp now h s with
  | Except.error e => Except.error e
  | Except.ok p => Except.ok p.2

/-- Events observable from the `acquire` retry loop: the numbered claim
attempts and the `time.sleep(retry_interval)` calls between them. -/
inductive LoopEv where
  | att (n : Nat)
  | sleep (d : Rat)
deriving Repr, DecidableEq

/-- The `timeout is not None and (time.time() - start) > timeout` test of
`acquire`, with `now` the wall-clock reading after the failed attempt. -/
def timedOut (timeout : Option Int) (start now : Int) : Bool :=
  match timeout with
  | none => false
  | some t => decide (now - start > t)

/-- The `while 1` loop of `SQLLockManager.acquire`, fuel-bounded.
`att n` is the outcome of the n-th `_acquire_lock` call (a handle, the
`None` sentinel, or a raised `MySQLError`); `clock n` is the wall clock at
the timeout check following attempt `n`.  Returns `none` when the fuel
runs out before the loop exits, otherwise the loop's result together with
the trace of attempts and sleeps it performed. -/
def acquireGo (att : Nat → Except MySQLError (Option SQLLock)) (clock : Nat → Int)
    (start : Int) (block : Bool) (timeout : Option Int) (ri : Rat) :
    Nat → Nat → Option (Except MySQLError (Option SQLLock) × List LoopEv)
  | 0, _ => none
  | fuel + 1, n =>
    match att n with
    | Except.error e => some (Except.error e, [LoopEv.att n])
    | Except.ok lock_ref =>
      if lock_ref.isNone && block then
        if timedOut timeout start (clock n) then some (Except.ok none, [LoopEv.att n])
        else
          match acquireGo att clock start block timeout ri fuel (n + 1) with
          | none => none
          | some (res, tr) => some (res, LoopEv.att n :: LoopEv.sleep ri :: tr)
      else some (Except.ok lock_ref, [LoopEv.att n])

/-- `SQLLockManager.acquire`: run the retry loop from attempt 0, with
`start` the `time.time()` reading taken on entry. -/
def acquire (att : Nat → Except MySQLError (Option SQLLock)) (clock : Nat → Int)
    (start : Int) (block : Bool) (timeout : Option Int) (ri : Rat) (fuel : Nat) :
    Option (Except MySQLError (Option SQLLock) × List LoopEv) :=
  acquireGo att clock start block timeout ri fuel 0

/-- The trace the loop produces when attempts `n, n+1, ..., n+k` run and
every attempt before the last is followed by a sleep. -/
def runTrace (ri : Rat) : Nat → Nat → List LoopEv
  | n, 0 => [LoopEv.att n]
  | n, k + 1 => LoopEv.att n :: LoopEv.sleep ri :: runTrace ri (n + 1) k

/-- A sequence of `_acquire_lock` attempts on the same name, run one after
the other against the store (each `(now, tok, expiry)` entry is one
attempt); returns the per-attempt outcomes and the final table. -/
def runAcq (m : SQLLockManager) (name owner : String) :
    List (Int × String × Int) → Table → List (Except MySQLError (Option SQLLock)) × Table
  | [], t => ([], t)
  | (now, tok, ex) :: rest, t =>
    match acquire_lock m now tok name owner ex t with
    | Except.ok (res, t') =>
        let p := runAcq m name owner rest t'
        (Except.ok res :: p.1, p.2)
    | Except.error e =>
        let p := runAcq m name owner rest t
        (Except.error e :: p.1, p.2)

/-- The tables reachable from a fresh (empty) lock table through the
store-touching operations of the module. -/
inductive Reach : Table → Prop where
  | init : Reach []
  | acq {t t' : Table} {m now tok lock_id owner expiry res} (h : Reach t)
      (hstep : acquire_lock m now tok lock_id owner expiry t = Except.ok (res, t')) : Reach t'
  | pinged {t : Table} {now : Int} {id tok : String} (h : Reach t) :
      Reach (ping now id tok t).2
  | released {t : Table} {now : Int} {id tok : String} (h : Reach t) :
      Reach (release now id tok t).2

/-- The sweep as the spec's words state it, for comparison with the code's
`sweep`: delete exactly the records whose `last_contact` is strictly more
than their own `expiry` seconds before the current store time. -/
def sweepSpecStrict (now : Int) : Table → Table
  | [] => []
  | (i, r) :: t =>
      if now - r.last_contact > r.expiry then sweepSpecStrict now t
      else (i, r) :: sweepSpecStrict now t

/-! Concrete data used in the closed instances below. -/

/-- Sample connection arguments. -/
def exArgs : DbArgs :=
  { host := "127.0.0.1", port := 3306, user := "root", password := "", database := "db" }

/-- A connected manager. -/
def exMgr : SQLLockManager := { table_name := "sqllock_locks", db_args := some exArgs }

/-- A manager on which `connect` has not been called. -/
def exMgrNC : SQLLockManager := { table_name := "sqllock_locks", db_args := none }

/-- A record claimed at store time 90 with a 10-second expiry. -/
def rA : LockRecord := { lock_hash := "tokA", owner := "alice", last_contact := 90, expiry := 10 }

/-- A record claimed at store time 95 with a 10-second expiry. -/
def rC : LockRecord := { lock_hash := "tokC", owner := "carol", last_contact := 95, expiry := 10 }

/-- A one-record table holding lock "a". -/
def tA : Table := [("a", rA)]

/-- A two-record table holding locks "a" and "c". -/
def tAC : Table := [("a", rA), ("c", rC)]

/-- The handle to lock "a" as claimed in `rA`. -/
def hA : SQLLock := { lock_id := "a", lock_hash := "tokA", owner := "alice", manager := exMgr }

/-- The handle returned by a sample claim of "b". -/
def hB : SQLLock := { lock_id := "b", lock_hash := "tokB", owner := "bob", manager := exMgr }

/-- A store whose lock table is `tA`. -/
def stA : Store := { tables := ["sqllock_locks"], rows := tA }

/-- An attempt sequence that succeeds on its third try. -/
def attW : Nat → Except MySQLError (Option SQLLock) := fun n =>
  if n = 2 then Except.ok (some hB) else Except.ok none

/-- An attempt sequence that never succeeds. -/
def attN : Nat → Except MySQLError (Option SQLLock) := fun _ => Except.ok none

/-- An attempt sequence whose first try raises an access-denied error. -/
def attE : Nat → Except MySQLError (Option SQLLock) := fun _ =>
  Except.error (1045, "Access denied")

/-- A wall clock advancing one second per attempt. -/
def clockW : Nat → Int := fun n => n

/-! Basic lemmas about the table operations. -/

@[simp]
theorem keysOf_nil : keysOf [] = [] := rfl

@[simp]
theorem keysOf_cons (i : String) (r : LockRecord) (t : Table) :
    keysOf ((i, r) :: t) = i :: keysOf t := rfl

theorem findRecord_eq_none_of_not_mem {t : Table} {id : String}
    (h : id ∉ keysOf t) : findRecord t id = none := by
  induction t with
  | nil => rfl
  | cons p t ih =>
    obtain ⟨i, r⟩ := p
    simp only [keysOf_cons, List.mem_cons, not_or] at h
    simp only [findRecord]
    rw [if_neg (fun he : i = id => h.1 he.symm)]
    exact ih h.2

theorem not_mem_of_findRecord_eq_none {t : Table} {id : String}
    (h : findRecord t id = none) : id ∉ keysOf t := by
  induction t with
  | nil => simp
  | cons p t ih =>
    obtain ⟨i, r⟩ := p
    by_cases hi : i = id
    · simp [findRecord, hi] at h
    · simp only [findRecord, if_neg hi] at h
      simp only [keysOf_cons, List.mem_cons, not_or]
      exact ⟨fun he => hi he.symm, ih h⟩

theorem mem_keysOf_sweep {t : Table} {now : Int} {id : String}
    (h : id ∈ keysOf (sweep now t)) : id ∈ keysOf t := by
  induction t with
  | nil => simp [sweep] at h
  | cons p t ih =>
    obtain ⟨i, r⟩ := p
    simp only [sweep] at h
    by_cases hs : isStale now r
    · rw [if_pos hs] at h
      exact List.mem_cons_of_mem _ (ih h)
    · rw [if_neg hs] at h
      rcases List.mem_cons.mp h with he | hm
      · exact List.mem_cons.mpr (Or.inl he)
      · exact List.mem_cons_of_mem _ (ih hm)

theorem WF_sweep {t : Table} (h : WF t) (now : Int) : WF (sweep now t) := by
  induction t with
  | nil => exact h
  | cons p t ih =>
    obtain ⟨i, r⟩ := p
    rw [WF, keysOf_cons, List.nodup_cons] at h
    simp only [sweep]
    by_cases hs : isStale now r
    · rw [if_pos hs]
      exact ih h.2
    · rw [if_neg hs]
      rw [WF, keysOf_cons, List.nodup_cons]
      exact ⟨fun hm => h.1 (mem_keysOf_sweep hm), ih h.2⟩

theorem findRecord_sweep_of_fresh {t : Table} {id : String} {r : LockRecord} {now : Int}
    (hf : findRecord t id = some r) (hfresh : isStale now r = false) :
    findRecord (sweep now t) id = some r := by
  induction t with
  | nil => simp [findRecord] at hf
  | cons p t ih =>
    obtain ⟨i, r'⟩ := p
    by_cases hi : i = id
    · rw [findRecord, if_pos hi] at hf
      obtain rfl : r' = r := Option.some.inj hf
      simp only [sweep, hfresh, Bool.false_eq_true, if_false, findRecord, if_pos hi]
    · rw [findRecord, if_neg hi] at hf
      simp only [sweep]
      by_cases hs : isStale now r'
      · rw [if_pos hs]
        exact ih hf
      · rw [if_neg hs, findRecord, if_neg hi]
        exact ih hf

theorem findRecord_sweep_of_stale {t : Table} {id : String} {r : LockRecord} {now : Int}
    (hWF : WF t) (hf : findRecord t id = some r) (hstale : isStale now r = true) :
    findRecord (sweep now t) id = none := by
  induction t with
  | nil => simp [findRecord] at hf
  | cons p t ih =>
    obtain ⟨i, r'⟩ := p
    rw [WF, keysOf_cons, List.nodup_cons] at hWF
    by_cases hi : i = id
    · rw [findRecord, if_pos hi] at hf
      obtain rfl : r' = r := Option.some.inj hf
      simp only [sweep, hstale, if_true]
      apply findRecord_eq_none_of_not_mem
      intro hm
      exact hWF.1 (hi ▸ mem_keysOf_sweep hm)
    · rw [findRecord, if_neg hi] at hf
      simp only [sweep]
      by_cases hs : isStale now r'
      · rw [if_pos hs]
        exact ih hWF.2 hf
      · rw [if_neg hs, findRecord, if_neg hi]
        exact ih hWF.2 hf

theorem findRecord_sweep_of_none {t : Table} {id : String} {now : Int}
    (hf : findRecord t id = none) : findRecord (sweep now t) id = none := by
  apply findRecord_eq_none_of_not_mem
  intro hm
  exact not_mem_of_findRecord_eq_none hf (mem_keysOf_sweep hm)

theorem matchCount_eq_zero_of_not_mem {t : Table} {id tok : String}
    (h : id ∉ keysOf t) : matchCount id tok t = 0 := by
  induction t with
  | nil => rfl
  | cons p t ih =>
    obtain ⟨i, r⟩ := p
    simp only [keysOf_cons, List.mem_cons, not_or] at h
    simp only [matchCount]
    rw [if_neg (fun hc => h.1 hc.1.symm)]
    simpa using ih h.2

theorem matchCount_eq_zero_of_find_none {t : Table} {id tok : String}
    (h : findRecord t id = none) : matchCount id tok t = 0 :=
  matchCount_eq_zero_of_not_mem (not_mem_of_findRecord_eq_none h)

theorem matchCount_eq_zero_of_hash_ne {t : Table} {id tok : String} {r : LockRecord}
    (hWF : WF t) (hf : findRecord t id = some r) (hne : r.lock_hash ≠ tok) :
    matchCount id tok t = 0 := by
  induction t with
  | nil => simp [findRecord] at hf
  | cons p t ih =>
    obtain ⟨i, r'⟩ := p
    rw [WF, keysOf_cons, List.nodup_cons] at hWF
    simp only [matchCount]
    by_cases hi : i = id
    · rw [findRecord, if_pos hi] at hf
      obtain rfl : r' = r := Option.some.inj hf
      rw [if_neg (fun hc => hne hc.2)]
      rw [matchCount_eq_zero_of_not_mem (hi ▸ hWF.1)]
    · rw [findRecord, if_neg hi] at hf
      rw [if_neg (fun hc => hi hc.1)]
      simpa using ih hWF.2 hf

theorem matchCount_eq_one_of_hash_eq {t : Table} {id tok : String} {r : LockRecord}
    (hWF : WF t) (hf : findRecord t id = some r) (heq : r.lock_hash = tok) :
    matchCount id tok t = 1 := by
  induction t with
  | nil => simp [findRecord] at hf
  | cons p t ih =>
    obtain ⟨i, r'⟩ := p
    rw [WF, keysOf_cons, List.nodup_cons] at hWF
    simp only [matchCount]
    by_cases hi : i = id
    · rw [findRecord, if_pos hi] at hf
      obtain rfl : r' = r := Option.some.inj hf
      rw [if_pos ⟨hi, heq⟩]
      rw [@matchCount_eq_zero_of_not_mem t id tok (hi ▸ hWF.1)]
    · rw [findRecord, if_neg hi] at hf
      rw [if_neg (fun hc => hi hc.1)]
      simpa using ih hWF.2 hf

/-! Lemmas about `pingUpdate`. -/

theorem keysOf_pingUpdate (now : Int) (id tok : String) (t : Table) :
    keysOf (pingUpdate now id tok t) = keysOf t := by
  induction t with
  | nil => rfl
  | cons p t ih =>
    obtain ⟨i, r⟩ := p
    simp only [pingUpdate]
    by_cases hc : i = id ∧ r.lock_hash = tok
    · rw [if_pos hc]
      simpa using ih
    · rw [if_neg hc]
      simpa using ih

theorem findRecord_pingUpdate_ne {t : Table} {now : Int} {id tok id' : String}
    (hne : id' ≠ id) : findRecord (pingUpdate now id tok t) id' = findRecord t id' := by
  induction t with
  | nil => rfl
  | cons p t ih =>
    obtain ⟨i, r⟩ := p
    simp only [pingUpdate]
    by_cases hc : i = id ∧ r.lock_hash = tok
    · rw [if_pos hc, findRecord, findRecord]
      rw [if_neg (fun he : i = id' => hne (he ▸ hc.1 ▸ rfl)), if_neg (fun he : i = id' => hne (he ▸ hc.1 ▸ rfl))]
      exact ih
    · rw [if_neg hc, findRecord, findRecord]
      by_cases hi : i = id'
      · rw [if_pos hi, if_pos hi]
      · rw [if_neg hi, if_neg hi]
        exact ih

theorem findRecord_pingUpdate_match {t : Table} {now : Int} {id tok : String} {r : LockRecord}
    (hf : findRecord t id = some r) (heq : r.lock_hash = tok) :
    findRecord (pingUpdate now id tok t) id = some { r with last_contact := now } := by
  induction t with
  | nil => simp [findRecord] at hf
  | cons p t ih =>
    obtain ⟨i, r'⟩ := p
    simp only [pingUpdate]
    by_cases hi : i = id
    · rw [findRecord, if_pos hi] at hf
      obtain rfl : r' = r := Option.some.inj hf
      rw [if_pos ⟨hi, heq⟩, findRecord, if_pos hi]
    · rw [findRecord, if_neg hi] at hf
      by_cases hc : i = id ∧ r'.lock_hash = tok
      · exact absurd hc.1 hi
      · rw [if_neg hc, findRecord, if_neg hi]
        exact ih hf

theorem findRecord_pingUpdate_miss {t : Table} {now : Int} {id tok : String} {r : LockRecord}
    (hf : findRecord t id = some r) (hne : r.lock_hash ≠ tok) :
    findRecord (pingUpdate now id tok t) id = some r := by
  induction t with
  | nil => simp [findRecord] at hf
  | cons p t ih =>
    obtain ⟨i, r'⟩ := p
    simp only [pingUpdate]
    by_cases hi : i = id
    · rw [findRecord, if_pos hi] at hf
      obtain rfl : r' = r := Option.some.inj hf
      rw [if_neg (fun hc => hne hc.2), findRecord, if_pos hi]
    · rw [findRecord, if_neg hi] at hf
      by_cases hc : i = id ∧ r'.lock_hash = tok
      · exact absurd hc.1 hi
      · rw [if_neg hc, findRecord, if_neg hi]
        exact ih hf

theorem findRecord_pingUpdate_none {t : Table} {now : Int} {id tok : String}
    (hf : findRecord t id = none) : findRecord (pingUpdate now id tok t) id = none := by
  apply findRecord_eq_none_of_not_mem
  rw [keysOf_pingUpdate]
  exact not_mem_of_findRecord_eq_none hf

/-! Lemmas about `deleteRecord`. -/

theorem mem_keysOf_deleteRecord {t : Table} {id tok id' : String}
    (h : id' ∈ keysOf (deleteRecord id tok t)) : id' ∈ keysOf t := by
  induction t with
  | nil => simp [deleteRecord] at h
  | cons p t ih =>
    obtain ⟨i, r⟩ := p
    simp only [deleteRecord] at h
    by_cases hc : i = id ∧ r.lock_hash = tok
    · rw [if_pos hc] at h
      exact List.mem_cons_of_mem _ (ih h)
    · rw [if_neg hc] at h
      rcases List.mem_cons.mp h with he | hm
      · exact List.mem_cons.mpr (Or.inl he)
      · exact List.mem_cons_of_mem _ (ih hm)

theorem WF_deleteRecord {t : Table} (hWF : WF t) (id tok : String) :
    WF (deleteRecord id tok t) := by
  induction t with
  | nil => exact hWF
  | cons p t ih =>
    obtain ⟨i, r⟩ := p
    rw [WF, keysOf_cons, List.nodup_cons] at hWF
    simp only [deleteRecord]
    by_cases hc : i = id ∧ r.lock_hash = tok
    · rw [if_pos hc]
      exact ih hWF.2
    · rw [if_neg hc]
      rw [WF, keysOf_cons, List.nodup_cons]
      exact ⟨fun hm => hWF.1 (mem_keysOf_deleteRecord hm), ih hWF.2⟩

theorem findRecord_deleteRecord_ne {t : Table} {id tok id' : String}
    (hne : id' ≠ id) : findRecord (deleteRecord id tok t) id' = findRecord t id' := by
  induction t with
  | nil => rfl
  | cons p t ih =>
    obtain ⟨i, r⟩ := p
    simp only [deleteRecord]
    by_cases hc : i = id ∧ r.lock_hash = tok
    · rw [if_pos hc, findRecord]
      rw [if_neg (fun he : i = id' => hne (he ▸ hc.1 ▸ rfl))]
      exact ih
    · rw [if_neg hc, findRecord, findRecord]
      by_cases hi : i = id'
      · rw [if_pos hi, if_pos hi]
      · rw [if_neg hi, if_neg hi]
        exact ih

theorem findRecord_deleteRecord_match {t : Table} {id tok : String} {r : LockRecord}
    (hWF : WF t) (hf : findRecord t id = some r) (heq : r.lock_hash = tok) :
    findRecord (deleteRecord id tok t) id = none := by
  induction t with
  | nil => simp [findRecord] at hf
  | cons p t ih =>
    obtain ⟨i, r'⟩ := p
    rw [WF, keysOf_cons, List.nodup_cons] at hWF
    simp only [deleteRecord]
    by_cases hi : i = id
    · rw [findRecord, if_pos hi] at hf
      obtain rfl : r' = r := Option.some.inj hf
      rw [if_pos ⟨hi, heq⟩]
      apply findRecord_eq_none_of_not_mem
      intro hm
      exact hWF.1 (hi ▸ mem_keysOf_deleteRecord hm)
    · rw [findRecord, if_neg hi] at hf
      rw [if_neg (fun hc => hi hc.1), findRecord, if_neg hi]
      exact ih hWF.2 hf

/-! Monotonicity of the validity check in the store clock. -/

theorem validCheck_mono {t : Table} {id tok : String} {now now' : Int}
    (hle : now ≤ now') (h : validCheck now' t id tok = true) :
    validCheck now t id tok = true := by
  unfold validCheck at h ⊢
  match hf : findRecord t id with
  | none => rw [hf] at h; exact absurd h (by simp)
  | some r =>
    rw [hf] at h
    simp only [Bool.and_eq_true, decide_eq_true_eq] at h ⊢
    exact ⟨h.1, lt_of_le_of_lt (by omega) h.2⟩

/-! Shape lemmas for `_acquire_lock`. -/

theorem acquire_lock_success {t : Table} {m : SQLLockManager} {now : Int}
    {tok lock_id owner : String} {expiry : Int}
    (h : findRecord (sweep now t) lock_id = none) :
    acquire_lock m now tok lock_id owner expiry t =
      Except.ok
        (some { lock_id := lock_id, lock_hash := tok, owner := owner, manager := m },
         (lock_id, { lock_hash := tok, owner := owner, last_contact := now, expiry := expiry })
           :: sweep now t) := by
  simp [acquire_lock, acquireBody, insertRecord, acquireHandler, h]

theorem acquire_lock_conflict {t : Table} {m : SQLLockManager} {now : Int}
    {tok lock_id owner : String} {expiry : Int} {r : LockRecord}
    (h : findRecord (sweep now t) lock_id = some r) :
    acquire_lock m now tok lock_id owner expiry t = Except.ok (none, sweep now t) := by
  simp [acquire_lock, acquireBody, insertRecord, acquireHandler, h, ER_DUP_ENTRY]

theorem acquire_lock_ne_error {t : Table} {m : SQLLockManager} {now : Int}
    {tok lock_id owner : String} {expiry : Int} :
    ∃ p, acquire_lock m now tok lock_id owner expiry t = Except.ok p := by
  match hf : findRecord (sweep now t) lock_id with
  | none => exact ⟨_, acquire_lock_success hf⟩
  | some r => exact ⟨_, acquire_lock_conflict hf⟩

theorem WF_acquire_lock {t t' : Table} {m : SQLLockManager} {now : Int}
    {tok lock_id owner : String} {expiry : Int} {res : Option SQLLock}
    (hWF : WF t)
    (hstep : acquire_lock m now tok lock_id owner expiry t = Except.ok (res, t')) :
    WF t' := by
  match hf : findRecord (sweep now t) lock_id with
  | none =>
    rw [acquire_lock_success hf] at hstep
    have h2 := Except.ok.inj hstep
    injection h2 with h3 h4
    subst h4
    rw [WF, keysOf_cons, List.nodup_cons]
    exact ⟨not_mem_of_findRecord_eq_none hf, WF_sweep hWF now⟩
  | some r =>
    rw [acquire_lock_conflict hf] at hstep
    have h2 := Except.ok.inj hstep
    injection h2 with h3 h4
    subst h4
    exact WF_sweep hWF now

theorem WF_ping (now : Int) (id tok : String) {t : Table} (hWF : WF t) :
    WF (ping now id tok t).2 := by
  show WF (pingUpdate now id tok t)
  rw [WF, keysOf_pingUpdate]
  exact hWF

theorem WF_release (now : Int) (id tok : String) {t : Table} (hWF : WF t) :
    WF (release now id tok t).2 := by
  unfold release
  by_cases hv : validCheck now t id tok
  · rw [if_pos hv]
    exact WF_deleteRecord hWF id tok
  · rw [if_neg hv]
    exact hWF

/-- Primary-key uniqueness is an invariant of every reachable table. -/
theorem WF_of_Reach {t : Table} (h : Reach t) : WF t := by
  induction h with
  | init => exact List.nodup_nil
  | acq _ hstep ih => exact WF_acquire_lock ih hstep
  | pinged _ ih => exact WF_ping _ _ _ ih
  | released _ ih => exact WF_release _ _ _ ih

/-- While a claim attempt finds a non-expired record for the name, the
attempt fails and the record survives the attempt's sweep. -/
theorem acquire_lock_blocked {t : Table} {m : SQLLockManager} {now : Int}
    {tok name owner : String} {expiry : Int} {r : LockRecord}
    (hf : findRecord t name = some r) (hfresh : isStale now r = false) :
    acquire_lock m now tok name owner expiry t = Except.ok (none, sweep now t) ∧
      findRecord (sweep now t) name = some r := by
  have hs := findRecord_sweep_of_fresh hf hfresh
  exact ⟨acquire_lock_conflict hs, hs⟩

/-- Sequential attempts on a name whose current record stays non-expired
all yield the `None` sentinel. -/
theorem runAcq_all_none {m : SQLLockManager} {name owner : String} {r : LockRecord} :
    ∀ (attempts : List (Int × String × Int)) (t : Table),
      findRecord t name = some r →
      (∀ a ∈ attempts, isStale a.1 r = false) →
      (runAcq m name owner attempts t).1 = attempts.map (fun _ => Except.ok none) := by
  intro attempts
  induction attempts with
  | nil => intro t _ _; rfl
  | cons a rest ih =>
    intro t hf hfresh
    obtain ⟨now, tok, ex⟩ := a
    have hfr : isStale now r = false := hfresh (now, tok, ex) (List.mem_cons_self _ _)
    obtain ⟨hstep, hkeep⟩ :=
      @acquire_lock_blocked t m now tok name owner ex r hf hfr
    simp only [runAcq, hstep, List.map]
    rw [ih (sweep now t) hkeep (fun a ha => hfresh a (List.mem_cons_of_mem _ ha))]

/-! Lemmas about the `acquire` retry loop. -/

theorem acquireGo_nonblocking (att : Nat → Except MySQLError (Option SQLLock))
    (clock : Nat → Int) (start : Int) (timeout : Option Int) (ri : Rat) (fuel n : Nat) :
    acquireGo att clock start false timeout ri (fuel + 1) n = some (att n, [LoopEv.att n]) := by
  cases h : att n with
  | error e => simp [acquireGo, h]
  | ok r => simp [acquireGo, h]

theorem acquireGo_error {att : Nat → Except MySQLError (Option SQLLock)}
    {clock : Nat → Int} {start : Int} {block : Bool} {timeout : Option Int} {ri : Rat}
    {fuel n : Nat} {e : MySQLError} (h : att n = Except.error e) :
    acquireGo att clock start block timeout ri (fuel + 1) n =
      some (Except.error e, [LoopEv.att n]) := by
  simp [acquireGo, h]

theorem acquireGo_success (att : Nat → Except MySQLError (Option SQLLock))
    (clock : Nat → Int) (start : Int) (timeout : Option Int) (ri : Rat) :
    ∀ (k n fuel : Nat) (hd : SQLLock),
      (∀ i, i < k → att (n + i) = Except.ok none ∧ timedOut timeout start (clock (n + i)) = false) →
      att (n + k) = Except.ok (some hd) →
      acquireGo att clock start true timeout ri (k + fuel + 1) n =
        some (Except.ok (some hd), runTrace ri n k) := by
  intro k
  induction k with
  | zero =>
    intro n fuel hd _ hatt
    rw [Nat.add_zero] at hatt
    rw [show 0 + fuel + 1 = fuel + 1 by omega]
    simp [acquireGo, hatt, runTrace]
  | succ k ih =>
    intro n fuel hd hall hatt
    have h0 := hall 0 (by omega)
    rw [Nat.add_zero] at h0
    rw [show k + 1 + fuel + 1 = (k + fuel + 1) + 1 by omega]
    have hrec := ih (n + 1) fuel hd
      (fun i hi => by
        have := hall (i + 1) (by omega)
        rwa [show n + (i + 1) = n + 1 + i by omega] at this)
      (by rwa [show n + (k + 1) = n + 1 + k by omega] at hatt)
    rw [acquireGo, h0.1, hrec]
    simp [h0.2, runTrace]

theorem acquireGo_timeoutExit (att : Nat → Except MySQLError (Option SQLLock))
    (clock : Nat → Int) (start : Int) (timeout : Option Int) (ri : Rat) :
    ∀ (k n fuel : Nat),
      (∀ i, i ≤ k → att (n + i) = Except.ok none) →
      (∀ i, i < k → timedOut timeout start (clock (n + i)) = false) →
      timedOut timeout start (clock (n + k)) = true →
      acquireGo att clock start true timeout ri (k + fuel + 1) n =
        some (Except.ok none, runTrace ri n k) := by
  intro k
  induction k with
  | zero =>
    intro n fuel hall _ hto
    rw [Nat.add_zero] at hto
    have h0 := hall 0 (by omega)
    rw [Nat.add_zero] at h0
    rw [show 0 + fuel + 1 = fuel + 1 by omega]
    simp [acquireGo, h0, hto, runTrace]
  | succ k ih =>
    intro n fuel hall hok hto
    have h0 := hall 0 (by omega)
    rw [Nat.add_zero] at h0
    have h0t := hok 0 (by omega)
    rw [Nat.add_zero] at h0t
    rw [show k + 1 + fuel + 1 = (k + fuel + 1) + 1 by omega]
    have hrec := ih (n + 1) fuel
      (fun i hi => by
        have := hall (i + 1) (by omega)
        rwa [show n + (i + 1) = n + 1 + i by omega] at this)
      (fun i hi => by
        have := hok (i + 1) (by omega)
        rwa [show n + (i + 1) = n + 1 + i by omega] at this)
      (by rwa [show n + (k + 1) = n + 1 + k by omega] at hto)
    rw [acquireGo, h0, hrec]
    simp [h0t, runTrace]

theorem acquireGo_forever (att : Nat → Except MySQLError (Option SQLLock))
    (clock : Nat → Int) (start : Int) (ri : Rat)
    (hatt : ∀ i, att i = Except.ok none) :
    ∀ (fuel n : Nat), acquireGo att clock start true none ri fuel n = none := by
  intro fuel
  induction fuel with
  | zero => intro n; rfl
  | succ fuel ih =>
    intro n
    simp [acquireGo, hatt n, timedOut, ih (n + 1)]

/-! Elimination lemmas for the validity check. -/

theorem validCheck_elim {t : Table} {now : Int} {id tok : String}
    (h : validCheck now t id tok = true) :
    ∃ r, findRecord t id = some r ∧ r.lock_hash = tok ∧ r.last_contact > now - r.expiry := by
  unfold validCheck at h
  cases hf : findRecord t id with
  | none => rw [hf] at h; simp at h
  | some r =>
    rw [hf] at h
    simp only [Bool.and_eq_true, decide_eq_true_eq] at h
    exact ⟨r, rfl, h.1, h.2⟩

theorem validCheck_eq_false_of_find_none {t : Table} {now : Int} {id tok : String}
    (hf : findRecord t id = none) : validCheck now t id tok = false := by
  unfold validCheck
  rw [hf]

/-! The claims. -/

/-- C1: every table reachable through the module's store operations has at
most one lock record per id (primary-key uniqueness), and any sequence of
claim attempts on a name whose current record stays non-expired at each
attempt yields only the no-lock sentinel, so while a non-expired record
exists at most one attempt (the one that created the record) ever
succeeds. -/
theorem claim_C1 :
    (∀ t : Table, Reach t → WF t) ∧
    (∀ (m : SQLLockManager) (name owner : String) (r : LockRecord)
       (attempts : List (Int × String × Int)) (t : Table),
       findRecord t name = some r →
       (∀ a ∈ attempts, isStale a.1 r = false) →
       (runAcq m name owner attempts t).1 = attempts.map (fun _ => Except.ok none)) :=
  ⟨fun _ h => WF_of_Reach h,
   fun _ _ _ _ attempts t hf hfresh =>
     runAcq_all_none attempts t hf hfresh⟩

theorem claim_C1_witness :
    WF ([] : Table) ∧
    (runAcq exMgr "a" "bob" [((95 : Int), "tokB", (60 : Int)), (99, "tokC", 60)] tA).1 =
      [Except.ok none, Except.ok none] := by
  refine ⟨claim_C1.1 [] Reach.init, ?_⟩
  rw [claim_C1.2 exMgr "a" "bob" rA [((95 : Int), "tokB", (60 : Int)), (99, "tokC", 60)] tA
    (by decide) (by decide)]
  rfl

/-- C2 counterexample: at store time 100, record "a" (last_contact 90,
expiry 10) is exactly its expiry old, not more than it, yet the sweep run
by a claim attempt on the unrelated name "b" deletes it: the code compares
with `<=`, not strictly. -/
theorem claim_C2_counterexample :
    sweep 100 tA ≠ sweepSpecStrict 100 tA ∧
    sweep 100 tA = [] ∧ sweepSpecStrict 100 tA = tA ∧
    ¬ ((100 : Int) - rA.last_contact > rA.expiry) ∧
    acquire_lock exMgr 100 "tokB" "b" "bob" 50 tA =
      Except.ok (some hB,
        [("b", { lock_hash := "tokB", owner := "bob", last_contact := 100, expiry := 50 })]) := by
  decide

/-- C2 (amended): every claim attempt, regardless of which name is being
claimed, first deletes from the namespace exactly those records whose
last_contact is AT LEAST their own expiry value, measured in seconds,
before the current store time; records strictly younger than their expiry
survive unchanged. -/
theorem claim_C2_amended {t t' : Table} {m : SQLLockManager} {now : Int}
    {tok lock_id owner : String} {expiry : Int} {res : Option SQLLock}
    (hWF : WF t)
    (hstep : acquire_lock m now tok lock_id owner expiry t = Except.ok (res, t')) :
    ∀ id', id' ≠ lock_id →
      findRecord t' id' =
        match findRecord t id' with
        | none => none
        | some r => if now - r.last_contact ≥ r.expiry then none else some r := by
  intro id' hne
  have hbase : findRecord t' id' = findRecord (sweep now t) id' := by
    match hf : findRecord (sweep now t) lock_id with
    | none =>
      rw [acquire_lock_success hf] at hstep
      have h2 := Except.ok.inj hstep
      injection h2 with h3 h4
      subst h4
      rw [findRecord, if_neg (fun he : lock_id = id' => hne he.symm)]
    | some r =>
      rw [acquire_lock_conflict hf] at hstep
      have h2 := Except.ok.inj hstep
      injection h2 with h3 h4
      subst h4
      rfl
  rw [hbase]
  match hf : findRecord t id' with
  | none => exact findRecord_sweep_of_none hf
  | some r =>
    show findRecord (sweep now t) id' =
      if now - r.last_contact ≥ r.expiry then none else some r
    by_cases hs : now - r.last_contact ≥ r.expiry
    · rw [if_pos hs]
      exact findRecord_sweep_of_stale hWF hf (by simp [isStale]; omega)
    · rw [if_neg hs]
      exact findRecord_sweep_of_fresh hf (by simp [isStale]; omega)

theorem claim_C2_witness :
    findRecord
        [("b", { lock_hash := "tokB", owner := "bob", last_contact := 100, expiry := 50 }),
         ("c", rC)] "a" =
      (match findRecord tAC "a" with
       | none => none
       | some r => if (100 : Int) - r.last_contact ≥ r.expiry then none else some r) ∧
    findRecord
        [("b", { lock_hash := "tokB", owner := "bob", last_contact := 100, expiry := 50 }),
         ("c", rC)] "c" =
      (match findRecord tAC "c" with
       | none => none
       | some r => if (100 : Int) - r.last_contact ≥ r.expiry then none else some r) :=
  ⟨@claim_C2_amended tAC
      [("b", { lock_hash := "tokB", owner := "bob", last_contact := 100, expiry := 50 }),
       ("c", rC)] exMgr 100 "tokB" "b" "bob" 50 (some hB) (by decide) (by decide) "a" (by decide),
   @claim_C2_amended tAC
      [("b", { lock_hash := "tokB", owner := "bob", last_contact := 100, expiry := 50 }),
       ("c", rC)] exMgr 100 "tokB" "b" "bob" 50 (some hB) (by decide) (by decide) "c" (by decide)⟩

/-- C3: with block=false, `acquire` performs exactly one claim attempt
(the trace is just attempt 0, no sleep) and returns that attempt's result;
with block=true it returns the handle of the first successful attempt,
sleeping retry_interval after each failed attempt in between, returns
nothing at the first failed attempt made after more than timeout seconds
of elapsed wall-clock time when a timeout is set, and never returns a
result while attempts keep failing when no timeout is set. -/
theorem claim_C3 :
    (∀ att clock start timeout ri fuel,
       acquire att clock start false timeout ri (fuel + 1) = some (att 0, [LoopEv.att 0])) ∧
    (∀ att clock start timeout ri fuel k hd,
       (∀ i, i < k → att i = Except.ok none ∧ timedOut timeout start (clock i) = false) →
       att k = Except.ok (some hd) →
       acquire att clock start true timeout ri (k + fuel + 1) =
         some (Except.ok (some hd), runTrace ri 0 k)) ∧
    (∀ att clock start tmo ri fuel k,
       (∀ i, i ≤ k → att i = Except.ok none) →
       (∀ i, i < k → clock i - start ≤ tmo) →
       clock k - start > tmo →
       acquire att clock start true (some tmo) ri (k + fuel + 1) =
         some (Except.ok none, runTrace ri 0 k)) ∧
    (∀ att clock start ri fuel,
       (∀ i, att i = Except.ok none) →
       acquire att clock start true none ri fuel = none) := by
  refine ⟨?_, ?_, ?_, ?_⟩
  · intro att clock start timeout ri fuel
    exact acquireGo_nonblocking att clock start timeout ri fuel 0
  · intro att clock start timeout ri fuel k hd hall hatt
    exact acquireGo_success att clock start timeout ri k 0 fuel hd
      (fun i hi => by simpa using hall i hi) (by simpa using hatt)
  · intro att clock start tmo ri fuel k hall hok hto
    refine acquireGo_timeoutExit att clock start (some tmo) ri k 0 fuel
      (fun i hi => by simpa using hall i hi)
      (fun i hi => by
        have := hok i hi
        simp only [Nat.zero_add, timedOut]
        simpa using by omega)
      ?_
    simp only [Nat.zero_add, timedOut]
    simpa using hto
  · intro att clock start ri fuel hatt
    exact acquireGo_forever att clock start ri hatt fuel 0

theorem claim_C3_witness :
    acquire attW clockW 0 false none (1 / 2) 1 = some (Except.ok none, [LoopEv.att 0]) ∧
    acquire attW clockW 0 true (some 10) (1 / 2) 7 =
      some (Except.ok (some hB), runTrace (1 / 2) 0 2) ∧
    acquire attN clockW 0 true (some 1) (1 / 2) 9 =
      some (Except.ok none, runTrace (1 / 2) 0 2) := by
  refine ⟨?_, ?_, ?_⟩
  · rw [claim_C3.1 attW clockW 0 none (1 / 2) 0]
    rfl
  · exact claim_C3.2.1 attW clockW 0 (some 10) (1 / 2) 4 2 hB (by decide) (by rfl)
  · exact claim_C3.2.2.1 attN clockW 0 1 (1 / 2) 6 2 (by decide) (by decide) (by decide)

/-- C4: the claim-insert's duplicate-primary-key failure is turned into
the `None` sentinel rather than raised (both by the handler and end to end
through `_acquire_lock` when a record for the name survives the sweep);
any other error code propagates unchanged through the handler; and the
blocking `acquire` loop stops at such a failure immediately — no retry, no
sleep. -/
theorem claim_C4 :
    (∀ (t1 : Table) (msg : String),
       acquireHandler t1 (Except.error (ER_DUP_ENTRY, msg)) = Except.ok (none, t1)) ∧
    (∀ (t : Table) (m : SQLLockManager) (now : Int) (tok lock_id owner : String)
       (expiry : Int) (r : LockRecord),
       findRecord (sweep now t) lock_id = some r →
       acquire_lock m now tok lock_id owner expiry t = Except.ok (none, sweep now t)) ∧
    (∀ (t1 : Table) (errno : Nat) (msg : String), errno ≠ ER_DUP_ENTRY →
       acquireHandler t1 (Except.error (errno, msg)) = Except.error (errno, msg)) ∧
    (∀ att clock start block timeout ri fuel n e, att n = Except.error e →
       acquireGo att clock start block timeout ri (fuel + 1) n =
         some (Except.error e, [LoopEv.att n])) := by
  refine ⟨?_, ?_, ?_, ?_⟩
  · intro t1 msg
    simp [acquireHandler]
  · intro t m now tok lock_id owner expiry r hf
    exact acquire_lock_conflict hf
  · intro t1 errno msg hne
    simp [acquireHandler, hne]
  · intro att clock start block timeout ri fuel n e h
    exact acquireGo_error h

theorem claim_C4_witness :
    acquire_lock exMgr 95 "tokB" "a" "bob" 50 tA = Except.ok (none, tA) ∧
    acquireHandler tA (Except.error (1045, "Access denied")) =
      Except.error (1045, "Access denied") ∧
    acquireGo attE clockW 0 true none (1 / 2) 4 0 =
      some (Except.error (1045, "Access denied"), [LoopEv.att 0]) :=
  ⟨claim_C4.2.1 tA exMgr 95 "tokB" "a" "bob" 50 rA (by decide),
   claim_C4.2.2.1 tA 1045 "Access denied" (by decide),
   claim_C4.2.2.2 attE clockW 0 true none (1 / 2) 3 0 (1045, "Access denied") rfl⟩

/-- C5: valid() is true iff a record for the handle's id exists whose
claim token equals the handle's token and whose last_contact is within
expiry seconds of the store's current time (strictly, matching the code's
`last_contact > NOW() - expiry`); in every other case — no record, token
mismatch, stale timestamp — it returns false; and the operation never
modifies the store. -/
theorem claim_C5 :
    (∀ (now : Int) (t : Table) (id tok : String),
       validCheck now t id tok = true ↔
         ∃ r, findRecord t id = some r ∧ r.lock_hash = tok ∧
           now - r.last_contact < r.expiry) ∧
    (∀ (now : Int) (h : SQLLock) (s : Store) (b : Bool) (s' : Store),
       validOp now h s = Except.ok (b, s') → s' = s) := by
  constructor
  · intro now t id tok
    constructor
    · intro h
      obtain ⟨r, hf, hh, hfr⟩ := validCheck_elim h
      exact ⟨r, hf, hh, by omega⟩
    · rintro ⟨r, hf, hh, hfr⟩
      unfold validCheck
      rw [hf]
      simp only [Bool.and_eq_true, decide_eq_true_eq]
      exact ⟨hh, by omega⟩
  · intro now h s b s' hop
    cases hda : db_conn h.manager with
    | error e => simp [validOp, hda] at hop
    | ok a =>
      simp only [validOp, hda] at hop
      have h2 := Except.ok.inj hop
      injection h2 with h3 h4
      exact h4.symm

theorem claim_C5_witness :
    validCheck 95 tA "a" "tokA" = true ∧ stA = stA :=
  ⟨(claim_C5.1 95 tA "a" "tokA").mpr ⟨rA, by decide, by decide, by decide⟩,
   claim_C5.2 95 hA stA true stA (by decide)⟩

/-- C6: ping() updates last_contact to the current store time on exactly
the record matching both the handle's id and token, leaves every other
record (and every other field of that record) unchanged, and returns true
iff exactly one row was affected — equivalently, iff a record with the
handle's id still carries the handle's token; deletion or overwriting by a
later claimant makes it return false. -/
theorem claim_C6 {t : Table} {now : Int} {id tok : String} (hWF : WF t) :
    ((ping now id tok t).1 = true ↔ ∃ r, findRecord t id = some r ∧ r.lock_hash = tok) ∧
    (∀ id', id' ≠ id → findRecord (ping now id tok t).2 id' = findRecord t id') ∧
    (∀ r, findRecord t id = some r → r.lock_hash = tok →
       findRecord (ping now id tok t).2 id = some { r with last_contact := now }) ∧
    (∀ r, findRecord t id = some r → r.lock_hash ≠ tok →
       findRecord (ping now id tok t).2 id = some r) ∧
    (findRecord t id = none → findRecord (ping now id tok t).2 id = none) := by
  refine ⟨?_, ?_, ?_, ?_, ?_⟩
  · show decide (matchCount id tok t = 1) = true ↔ _
    simp only [decide_eq_true_eq]
    constructor
    · intro h1
      cases hf : findRecord t id with
      | none => rw [matchCount_eq_zero_of_find_none hf] at h1; simp at h1
      | some r =>
        by_cases hh : r.lock_hash = tok
        · exact ⟨r, rfl, hh⟩
        · rw [matchCount_eq_zero_of_hash_ne hWF hf hh] at h1; simp at h1
    · rintro ⟨r, hf, hh⟩
      exact matchCount_eq_one_of_hash_eq hWF hf hh
  · intro id' hne
    exact findRecord_pingUpdate_ne hne
  · intro r hf hh
    exact findRecord_pingUpdate_match hf hh
  · intro r hf hh
    exact findRecord_pingUpdate_miss hf hh
  · intro hf
    exact findRecord_pingUpdate_none hf

theorem claim_C6_witness :
    (ping 95 "a" "tokA" tA).1 = true ∧
    findRecord (ping 95 "a" "tokA" tA).2 "a" =
      some { lock_hash := "tokA", owner := "alice", last_contact := 95, expiry := 10 } ∧
    (ping 95 "a" "other" tA).1 = false :=
  ⟨((@claim_C6 tA 95 "a" "tokA" (by decide)).1).mpr ⟨rA, by decide, by decide⟩,
   (@claim_C6 tA 95 "a" "tokA" (by decide)).2.2.1 rA (by decide) (by decide),
   by
    have h := (@claim_C6 tA 95 "a" "other" (by decide)).1
    cases hp : (ping 95 "a" "other" tA).1
    · rfl
    · obtain ⟨r, hf, hh⟩ := h.mp hp
      exact absurd (by rw [show r = rA from by
        have := hf
        simp [tA, findRecord] at this
        exact this.symm] at hh; exact hh) (by decide)⟩

/-- C7: release() first evaluates valid(): if invalid it returns false and
leaves the store untouched; if valid it deletes exactly the record
matching the handle's id and token (leaving others unchanged) and returns
true; and releasing twice in succession (at a later-or-equal store time)
returns false the second time, so true is returned at most once. -/
theorem claim_C7 {t : Table} {now now' : Int} {id tok : String} (hWF : WF t) :
    (validCheck now t id tok = false → release now id tok t = (false, t)) ∧
    (validCheck now t id tok = true →
       (release now id tok t).1 = true ∧
       findRecord (release now id tok t).2 id = none ∧
       (∀ id', id' ≠ id → findRecord (release now id tok t).2 id' = findRecord t id')) ∧
    (now ≤ now' → (release now' id tok (release now id tok t).2).1 = false) := by
  refine ⟨?_, ?_, ?_⟩
  · intro hv
    unfold release
    rw [if_neg (by rw [hv]; exact fun h => Bool.false_ne_true h)]
  · intro hv
    obtain ⟨r, hf, hh, _⟩ := validCheck_elim hv
    unfold release
    rw [if_pos hv]
    refine ⟨?_, ?_, ?_⟩
    · simp [matchCount_eq_one_of_hash_eq hWF hf hh]
    · exact findRecord_deleteRecord_match hWF hf hh
    · intro id' hne
      exact findRecord_deleteRecord_ne hne
  · intro hle
    by_cases hv : validCheck now t id tok = true
    · obtain ⟨r, hf, hh, _⟩ := validCheck_elim hv
      have h2 : (release now id tok t).2 = deleteRecord id tok t := by
        unfold release
        rw [if_pos hv]
      rw [h2]
      have hnone : findRecord (deleteRecord id tok t) id = none :=
        findRecord_deleteRecord_match hWF hf hh
      unfold release
      rw [if_neg (by rw [validCheck_eq_false_of_find_none hnone]; exact fun h => Bool.false_ne_true h)]
    · have h2 : (release now id tok t).2 = t := by
        unfold release
        rw [if_neg hv]
      rw [h2]
      unfold release
      rw [if_neg (fun hv' => hv (validCheck_mono hle hv'))]

theorem claim_C7_witness :
    (release 95 "a" "tokA" tA).1 = true ∧
    (release 96 "a" "tokA" (release 95 "a" "tokA" tA).2).1 = false :=
  ⟨((@claim_C7 tA 95 96 "a" "tokA" (by decide)).2.1 (by decide)).1,
   (@claim_C7 tA 95 96 "a" "tokA" (by decide)).2.2 (by decide)⟩

/-- C8: a successful claim binds its handle to the token generated for
that claim and stores that token in the record; hence two successive
successful claims of a name made with distinct generated tokens (as
`uuid1` guarantees) leave the earlier handle's token mismatched, and the
earlier handle's valid() and ping() both return false from then on. -/
theorem claim_C8 {t t' : Table} {m : SQLLockManager} {n2 : Int}
    {tok1 tok2 name owner : String} {expiry : Int} {hd : SQLLock}
    (hWF : WF t) (hne : tok1 ≠ tok2)
    (hstep : acquire_lock m n2 tok2 name owner expiry t = Except.ok (some hd, t')) :
    hd = { lock_id := name, lock_hash := tok2, owner := owner, manager := m } ∧
    findRecord t' name =
      some { lock_hash := tok2, owner := owner, last_contact := n2, expiry := expiry } ∧
    (∀ now, validCheck now t' name tok1 = false) ∧
    (∀ now, (ping now name tok1 t').1 = false) := by
  have hWF' : WF t' := WF_acquire_lock hWF hstep
  cases hf : findRecord (sweep n2 t) name with
  | some r =>
    rw [acquire_lock_conflict hf] at hstep
    have h2 := Except.ok.inj hstep
    injection h2 with h3 h4
    exact absurd h3 (by simp)
  | none =>
    rw [acquire_lock_success hf] at hstep
    have h2 := Except.ok.inj hstep
    injection h2 with h3 h4
    have hhd := Option.some.inj h3
    subst h4
    have hfind : findRecord
        ((name, { lock_hash := tok2, owner := owner, last_contact := n2, expiry := expiry })
          :: sweep n2 t) name =
        some { lock_hash := tok2, owner := owner, last_contact := n2, expiry := expiry } := by
      simp [findRecord]
    refine ⟨hhd.symm, hfind, ?_, ?_⟩
    · intro now
      unfold validCheck
      rw [hfind]
      have hd2 : (tok2 = tok1) = False := eq_false (fun h => hne h.symm)
      simp [hd2]
    · intro now
      show decide (matchCount name tok1 _ = 1) = false
      rw [matchCount_eq_zero_of_hash_ne hWF' hfind (fun h => hne h.symm)]
      simp

theorem claim_C8_witness :
    validCheck 1000
        [("a", { lock_hash := "tokB", owner := "bob", last_contact := 1000, expiry := 10 })]
        "a" "tokA" = false ∧
    (ping 1000 "a" "tokA"
        [("a", { lock_hash := "tokB", owner := "bob", last_contact := 1000, expiry := 10 })]).1 =
      false :=
  ⟨(@claim_C8 tA
      [("a", { lock_hash := "tokB", owner := "bob", last_contact := 1000, expiry := 10 })]
      exMgr 1000 "tokA" "tokB" "a" "bob" 10
      { lock_id := "a", lock_hash := "tokB", owner := "bob", manager := exMgr }
      (by decide) (by decide) (by decide)).2.2.1 1000,
   (@claim_C8 tA
      [("a", { lock_hash := "tokB", owner := "bob", last_contact := 1000, expiry := 10 })]
      exMgr 1000 "tokA" "tokB" "a" "bob" 10
      { lock_id := "a", lock_hash := "tokB", owner := "bob", manager := exMgr }
      (by decide) (by decide) (by decide)).2.2.2 1000⟩

/-- C9: before connect() has stored connection arguments, every
store-touching operation — setup, destroy, ready, the claim attempt made
by acquire, and the handle operations valid, ping, release (and the
context-manager exit, which calls release) — fails with NotConnected, and
no store value is produced or changed. -/
theorem claim_C9 (m : SQLLockManager) (s : Store) (hm : m.db_args = none) :
    setupOp m s = Except.error NotConnected.mk ∧
    destroyOp m s = Except.error NotConnected.mk ∧
    readyOp m s = Except.error NotConnected.mk ∧
    (∀ (now : Int) (tok lock_id owner : String) (expiry : Int),
       acquireOp m now tok lock_id owner expiry s = Except.error NotConnected.mk) ∧
    (∀ (now : Int) (lock_id tok owner : String),
       validOp now { lock_id := lock_id, lock_hash := tok, owner := owner, manager := m } s =
         Except.error NotConnected.mk ∧
       pingOp now { lock_id := lock_id, lock_hash := tok, owner := owner, manager := m } s =
         Except.error NotConnected.mk ∧
       releaseOp now { lock_id := lock_id, lock_hash := tok, owner := owner, manager := m } s =
         Except.error NotConnected.mk ∧
       exitOp now { lock_id := lock_id, lock_hash := tok, owner := owner, manager := m } s =
         Except.error NotConnected.mk) := by
  have hdc : db_conn m = Except.error NotConnected.mk := by
    unfold db_conn
    rw [hm]
  refine ⟨?_, ?_, ?_, ?_, ?_⟩
  · simp [setupOp, hdc]
  · simp [destroyOp, hdc]
  · simp [readyOp, hdc]
  · intro now tok lock_id owner expiry
    simp [acquireOp, hdc]
  · intro now lock_id tok owner
    refine ⟨?_, ?_, ?_, ?_⟩
    · simp [validOp, hdc]
    · simp [pingOp, hdc]
    · simp [releaseOp, hdc]
    · simp [exitOp, releaseOp, hdc]

theorem claim_C9_witness :
    setupOp exMgrNC stA = Except.error NotConnected.mk ∧
    validOp 95 { lock_id := "a", lock_hash := "tokA", owner := "alice", manager := exMgrNC }
      stA = Except.error NotConnected.mk :=
  ⟨(claim_C9 exMgrNC stA rfl).1,
   ((claim_C9 exMgrNC stA rfl).2.2.2.2 95 "a" "tokA" "alice").1⟩

/-- C10: a handle is a scoped resource: entering the scope returns the
handle itself unchanged, exiting invokes release() (whatever release
produced, exit propagates its resulting store), and when the handle is
still valid on exit its record is deleted from the store by the exit. -/
theorem claim_C10 {hd : SQLLock} {s : Store} {now : Int} {a : DbArgs} :
    enterOp hd = hd ∧
    (∀ (b : Bool) (s' : Store), releaseOp now hd s = Except.ok (b, s') →
       exitOp now hd s = Except.ok s') ∧
    (hd.manager.db_args = some a → WF s.rows →
       validCheck now s.rows hd.lock_id hd.lock_hash = true →
       ∃ s', exitOp now hd s = Except.ok s' ∧
         findRecord s'.rows hd.lock_id = none ∧ s'.tables = s.tables) := by
  refine ⟨rfl, ?_, ?_⟩
  · intro b s' hrel
    unfold exitOp
    rw [hrel]
  · intro hcon hWF hv
    have hdc : db_conn hd.manager = Except.ok a := by
      unfold db_conn
      rw [hcon]
    obtain ⟨r, hf, hh, _⟩ := validCheck_elim hv
    refine ⟨{ s with rows := deleteRecord hd.lock_id hd.lock_hash s.rows }, ?_, ?_, rfl⟩
    · simp [exitOp, releaseOp, hdc, release, hv]
    · exact findRecord_deleteRecord_match hWF hf hh

theorem claim_C10_witness :
    enterOp hA = hA ∧
    (∃ s', exitOp 95 hA stA = Except.ok s' ∧
       findRecord s'.rows "a" = none ∧ s'.tables = stA.tables) :=
  ⟨(@claim_C10 hA stA 95 exArgs).1,
   (@claim_C10 hA stA 95 exArgs).2.2 (by decide) (by decide) (by decide)⟩

end SqlLock
